import Mathlib

/-!
Verification development for the `extract_metadata` document-processing
pipeline (backend/extract_metadata).  Python dictionaries are embedded as
insertion-ordered association lists over a JSON-like value type, strings as
`String`/`List Char`, and machinery that the source treats as an external
collaborator (the regex engine, the model client, the loader) is embedded as
an explicit oracle parameter, mirroring the constructor-injection used by the
source.  All definitions are executable.
-/

namespace ExtractMetadata

/-- A JSON-like value, the shallow embedding of the Python values that flow
through the pipeline (`None`, `bool`, `int`, `str`, `list`, `dict`). -/
inductive JVal where
  | jnull : JVal
  | jbool : Bool → JVal
  | jnum : Int → JVal
  | jstr : String → JVal
  | jarr : List JVal → JVal
  | jobj : List (String × JVal) → JVal
deriving Repr

mutual

/-- Decidable equality on `JVal` (hand-written: the nested `List` makes the
derive handler unavailable). -/
def JVal.decEq : (a b : JVal) → Decidable (a = b)
  | .jnull, .jnull => isTrue rfl
  | .jbool a, .jbool b =>
    match Bool.decEq a b with
    | isTrue h => isTrue (h ▸ rfl)
    | isFalse h => isFalse (fun he => h (by injection he))
  | .jnum a, .jnum b =>
    match Int.decEq a b with
    | isTrue h => isTrue (h ▸ rfl)
    | isFalse h => isFalse (fun he => h (by injection he))
  | .jstr a, .jstr b =>
    match String.decEq a b with
    | isTrue h => isTrue (h ▸ rfl)
    | isFalse h => isFalse (fun he => h (by injection he))
  | .jarr a, .jarr b =>
    match JVal.decEqList a b with
    | isTrue h => isTrue (h ▸ rfl)
    | isFalse h => isFalse (fun he => h (by injection he))
  | .jobj a, .jobj b =>
    match JVal.decEqFields a b with
    | isTrue h => isTrue (h ▸ rfl)
    | isFalse h => isFalse (fun he => h (by injection he))
  | .jnull, .jbool _ => isFalse (by intro h; exact JVal.noConfusion h)
  | .jnull, .jnum _ => isFalse (by intro h; exact JVal.noConfusion h)
  | .jnull, .jstr _ => isFalse (by intro h; exact JVal.noConfusion h)
  | .jnull, .jarr _ => isFalse (by intro h; exact JVal.noConfusion h)
  | .jnull, .jobj _ => isFalse (by intro h; exact JVal.noConfusion h)
  | .jbool _, .jnull => isFalse (by intro h; exact JVal.noConfusion h)
  | .jbool _, .jnum _ => isFalse (by intro h; exact JVal.noConfusion h)
  | .jbool _, .jstr _ => isFalse (by intro h; exact JVal.noConfusion h)
  | .jbool _, .jarr _ => isFalse (by intro h; exact JVal.noConfusion h)
  | .jbool _, .jobj _ => isFalse (by intro h; exact JVal.noConfusion h)
  | .jnum _, .jnull => isFalse (by intro h; exact JVal.noConfusion h)
  | .jnum _, .jbool _ => isFalse (by intro h; exact JVal.noConfusion h)
  | .jnum _, .jstr _ => isFalse (by intro h; exact JVal.noConfusion h)
  | .jnum _, .jarr _ => isFalse (by intro h; exact JVal.noConfusion h)
  | .jnum _, .jobj _ => isFalse (by intro h; exact JVal.noConfusion h)
  | .jstr _, .jnull => isFalse (by intro h; exact JVal.noConfusion h)
  | .jstr _, .jbool _ => isFalse (by intro h; exact JVal.noConfusion h)
  | .jstr _, .jnum _ => isFalse (by intro h; exact JVal.noConfusion h)
  | .jstr _, .jarr _ => isFalse (by intro h; exact JVal.noConfusion h)
  | .jstr _, .jobj _ => isFalse (by intro h; exact JVal.noConfusion h)
  | .jarr _, .jnull => isFalse (by intro h; exact JVal.noConfusion h)
  | .jarr _, .jbool _ => isFalse (by intro h; exact JVal.noConfusion h)
  | .jarr _, .jnum _ => isFalse (by intro h; exact JVal.noConfusion h)
  | .jarr _, .jstr _ => isFalse (by intro h; exact JVal.noConfusion h)
  | .jarr _, .jobj _ => isFalse (by intro h; exact JVal.noConfusion h)
  | .jobj _, .jnull => isFalse (by intro h; exact JVal.noConfusion h)
  | .jobj _, .jbool _ => isFalse (by intro h; exact JVal.noConfusion h)
  | .jobj _, .jnum _ => isFalse (by intro h; exact JVal.noConfusion h)
  | .jobj _, .jstr _ => isFalse (by intro h; exact JVal.noConfusion h)
  | .jobj _, .jarr _ => isFalse (by intro h; exact JVal.noConfusion h)

/-- Decidable equality on lists of `JVal`. -/
def JVal.decEqList : (a b : List JVal) → Decidable (a = b)
  | [], [] => isTrue rfl
  | [], _ :: _ => isFalse (by intro h; exact List.noConfusion h)
  | _ :: _, [] => isFalse (by intro h; exact List.noConfusion h)
  | a :: as, b :: bs =>
    match JVal.decEq a b, JVal.decEqList as bs with
    | isTrue h1, isTrue h2 => isTrue (h1 ▸ h2 ▸ rfl)
    | isFalse h1, _ => isFalse (fun he => h1 (by injection he))
    | _, isFalse h2 => isFalse (fun he => h2 (by injection he))

/-- Decidable equality on `JVal` field lists. -/
def JVal.decEqFields : (a b : List (String × JVal)) → Decidable (a = b)
  | [], [] => isTrue rfl
  | [], _ :: _ => isFalse (by intro h; exact List.noConfusion h)
  | _ :: _, [] => isFalse (by intro h; exact List.noConfusion h)
  | (k1, v1) :: as, (k2, v2) :: bs =>
    match String.decEq k1 k2, JVal.decEq v1 v2, JVal.decEqFields as bs with
    | isTrue h1, isTrue h2, isTrue h3 => isTrue (h1 ▸ h2 ▸ h3 ▸ rfl)
    | isFalse h1, _, _ =>
      isFalse (fun he => h1 (congrArg (fun l => (l.headD (k1, v1)).1) he))
    | _, isFalse h2, _ =>
      isFalse (fun he => h2 (congrArg (fun l => (l.headD (k1, v1)).2) he))
    | _, _, isFalse h3 => isFalse (fun he => h3 (by injection he))

end

instance : DecidableEq JVal := JVal.decEq

/-- A Python `dict[str, value]`, embedded as an insertion-ordered association
list.  All operations below preserve the Python-dict invariant of unique keys
when their inputs satisfy it. -/
abbrev RecordMap := List (String × JVal)

/-- `m[k]` / `k in m`: the value at the first entry whose key is `k`. -/
def mlookup (m : RecordMap) (k : String) : Option JVal :=
  match m with
  | [] => none
  | (k1, v1) :: rest => if k1 = k then some v1 else mlookup rest k

/-- `m[k] = v` on a Python dict: replace in place (keeping the entry's
position) when the key is present, append otherwise. -/
def mset (m : RecordMap) (k : String) (v : JVal) : RecordMap :=
  match m with
  | [] => [(k, v)]
  | (k1, v1) :: rest => if k1 = k then (k, v) :: rest else (k1, v1) :: mset rest k v

/-- `base.update(new)`: assign every entry of `new` into `base`, in order. -/
def mupdate (base new : RecordMap) : RecordMap :=
  new.foldl (fun acc kv => mset acc kv.1 kv.2) base

/-- The keys of a map, in order. -/
def mkeys (m : RecordMap) : List String := m.map Prod.fst

theorem mlookup_mset_self (m : RecordMap) (k : String) (v : JVal) :
    mlookup (mset m k v) k = some v := by
  induction m with
  | nil => simp [mset, mlookup]
  | cons kv rest ih =>
    obtain ⟨k1, v1⟩ := kv
    by_cases h : k1 = k
    · simp [mset, h, mlookup]
    · simp [mset, h, mlookup, ih]

theorem mlookup_mset_other (m : RecordMap) (k k' : String) (v : JVal) (hk : k' ≠ k) :
    mlookup (mset m k' v) k = mlookup m k := by
  induction m with
  | nil => simp [mset, mlookup, hk]
  | cons kv rest ih =>
    obtain ⟨k1, v1⟩ := kv
    by_cases h : k1 = k'
    · subst h
      simp [mset, mlookup, hk]
    · by_cases h2 : k1 = k
      · subst h2
        simp [mset, h, mlookup]
      · simp [mset, h, mlookup, h2, ih]

theorem mlookup_mupdate_not_mem (base new : RecordMap) (k : String)
    (h : k ∉ mkeys new) : mlookup (mupdate base new) k = mlookup base k := by
  induction new generalizing base with
  | nil => simp [mupdate]
  | cons kv rest ih =>
    obtain ⟨k1, v1⟩ := kv
    simp only [mkeys, List.map_cons, List.mem_cons, not_or] at h
    have step : mupdate base ((k1, v1) :: rest) = mupdate (mset base k1 v1) rest := rfl
    rw [step, ih (mset base k1 v1) (by simpa [mkeys] using h.2),
      mlookup_mset_other base k k1 v1 (fun he => h.1 he.symm)]

/-- After `base.update(new)`, a key of `new` (a Python dict, so unique keys)
holds the value `new` assigns it. -/
theorem mlookup_mupdate_of_mem (base new : RecordMap) (k : String) (v : JVal)
    (hnd : (mkeys new).Nodup) (h : mlookup new k = some v) :
    mlookup (mupdate base new) k = some v := by
  induction new generalizing base with
  | nil => simp [mlookup] at h
  | cons kv rest ih =>
    obtain ⟨k1, v1⟩ := kv
    have hstep : mupdate base ((k1, v1) :: rest) = mupdate (mset base k1 v1) rest := rfl
    rw [hstep]
    have hnd0 : (k1 :: List.map Prod.fst rest).Nodup := hnd
    have hnd1 : k1 ∉ List.map Prod.fst rest := (List.nodup_cons.mp hnd0).1
    have hnd2 : (mkeys rest).Nodup := (List.nodup_cons.mp hnd0).2
    by_cases hk : k1 = k
    · have hv : some v1 = some v := by rw [← h]; simp [mlookup, hk]
      have hkk : k ∉ mkeys rest := hk ▸ hnd1
      rw [mlookup_mupdate_not_mem _ _ _ hkk, ← hk, mlookup_mset_self]
      exact hv
    · have h' : mlookup rest k = some v := by rw [← h]; simp [mlookup, hk]
      exact ih (mset base k1 v1) hnd2 h'

theorem mlookup_append_left (m1 m2 : RecordMap) (k : String) (v : JVal)
    (h : mlookup m1 k = some v) : mlookup (m1 ++ m2) k = some v := by
  induction m1 with
  | nil => simp [mlookup] at h
  | cons kv rest ih =>
    obtain ⟨k1, v1⟩ := kv
    by_cases hk : k1 = k
    · simpa [mlookup, hk] using h
    · simp only [mlookup, if_neg hk] at h ⊢
      exact ih h

theorem mlookup_append_right (m1 m2 : RecordMap) (k : String)
    (h : mlookup m1 k = none) : mlookup (m1 ++ m2) k = mlookup m2 k := by
  induction m1 with
  | nil => simp
  | cons kv rest ih =>
    obtain ⟨k1, v1⟩ := kv
    by_cases hk : k1 = k
    · simp [mlookup, hk] at h
    · simp only [mlookup, if_neg hk] at h ⊢
      exact ih h

/-- Looking up through a key-preserving filter: if every entry with key `k`
survives the filter, the first surviving `k`-entry is the original first. -/
theorem mlookup_filter_of_key (m : RecordMap) (p : String × JVal → Bool) (k : String)
    (hp : ∀ v, p (k, v) = true) : mlookup (m.filter p) k = mlookup m k := by
  induction m with
  | nil => simp
  | cons kv rest ih =>
    obtain ⟨k1, v1⟩ := kv
    by_cases hk : k1 = k
    · subst hk
      simp [List.filter_cons, hp v1, mlookup]
    · by_cases hpkv : p (k1, v1)
      · simp [List.filter_cons, hpkv, mlookup, hk, ih]
      · simp [List.filter_cons, hpkv, mlookup, hk, ih]

/-! ### Character helpers (ASCII, mirroring Python semantics) -/

/-- The `{` character (written via its code point). -/
def lbrace : Char := Char.ofNat 123

/-- The `}` character (written via its code point). -/
def rbrace : Char := Char.ofNat 125

/-- The `"` character. -/
def dquote : Char := Char.ofNat 34

/-- The `'` character. -/
def squote : Char := Char.ofNat 39

/-- The `\` character. -/
def bslash : Char := Char.ofNat 92

/-- Python whitespace as used by `str.strip()` and by `re`'s `\s` on ASCII
text (space, tab, newline, carriage return, vertical tab, form feed). -/
def pyWs (c : Char) : Bool :=
  c = ' ' ∨ c = Char.ofNat 9 ∨ c = Char.ofNat 10 ∨ c = Char.ofNat 13 ∨
    c = Char.ofNat 11 ∨ c = Char.ofNat 12

/-- Python `str.strip()`: drop leading and trailing whitespace. -/
def pyStrip (s : List Char) : List Char :=
  ((s.dropWhile pyWs).reverse.dropWhile pyWs).reverse

/-! ### A strict JSON parser, the embedding of `json.loads`.

Covers the JSON fragment the pipeline exercises: objects, arrays, strings
with the common escapes, integer numbers, `null`, `true`, `false`.  It is
strict exactly where `json.loads` is strict: single-quoted strings and
trailing commas are rejected.  Recursion is fueled by the input length
(each nesting level consumes at least one character, so `length + 1` fuel
never runs out on an input the grammar accepts). -/

/-- JSON whitespace accepted between tokens by `json.loads`. -/
def jsonWs (c : Char) : Bool :=
  c = ' ' ∨ c = Char.ofNat 9 ∨ c = Char.ofNat 10 ∨ c = Char.ofNat 13

/-- Skip JSON inter-token whitespace. -/
def skipWs (s : List Char) : List Char :=
  s.dropWhile jsonWs

/-- One JSON string escape (`\" \\ \/ \n \t \r`); other escapes are outside
the embedded fragment and are rejected. -/
def escChar (e : Char) : Option Char :=
  if e = dquote then some dquote
  else if e = bslash then some bslash
  else if e = '/' then some '/'
  else if e = 'n' then some (Char.ofNat 10)
  else if e = 't' then some (Char.ofNat 9)
  else if e = 'r' then some (Char.ofNat 13)
  else none

/-- Parse the body of a JSON string after the opening quote; returns the
decoded content and the remainder after the closing quote. -/
def parseStringBody : List Char → Option (List Char × List Char)
  | [] => none
  | c :: rest =>
    if c = dquote then some ([], rest)
    else if c = bslash then
      match rest with
      | [] => none
      | e :: rest2 =>
        match escChar e with
        | none => none
        | some d =>
          match parseStringBody rest2 with
          | none => none
          | some (s, r) => some (d :: s, r)
    else
      match parseStringBody rest with
      | none => none
      | some (s, r) => some (c :: s, r)

/-- Accumulate a run of decimal digits. -/
def parseDigitsAux : List Char → Nat → Nat × List Char
  | [], acc => (acc, [])
  | c :: rest, acc =>
    if c.isDigit then parseDigitsAux rest (acc * 10 + (c.toNat - 48)) else (acc, c :: rest)

/-- Parse a JSON integer (optional minus sign, at least one digit). -/
def parseNum : List Char → Option (Int × List Char)
  | [] => none
  | c :: rest =>
    if c = '-' then
      match rest with
      | [] => none
      | d :: _ =>
        if d.isDigit then
          let (n, r) := parseDigitsAux rest 0
          some (-(n : Int), r)
        else none
    else if c.isDigit then
      let (n, r) := parseDigitsAux (c :: rest) 0
      some ((n : Int), r)
    else none

/-- What the recursive-descent parser is currently parsing: a value, the
inside of an object (just after `{`, or between members with the fields
accumulated so far), or the inside of an array. -/
inductive PMode where
  | val : PMode
  | objBody : PMode
  | objMembers : RecordMap → PMode
  | arrBody : PMode
  | arrElems : List JVal → PMode

/-- The recursive-descent core of `json.loads`, as one fueled, structurally
recursive function (kernel-reducible).  Duplicate object keys behave as in
a Python dict built by repeated assignment (last value wins, first
position). -/
def parseF : Nat → PMode → List Char → Option (JVal × List Char)
  | 0, _, _ => none
  | fuel + 1, .val, cs =>
    match skipWs cs with
    | [] => none
    | c :: rest =>
      if c = dquote then
        match parseStringBody rest with
        | none => none
        | some (s, r) => some (.jstr (String.mk s), r)
      else if c = lbrace then parseF fuel .objBody rest
      else if c = '[' then parseF fuel .arrBody rest
      else if ['n', 'u', 'l', 'l'].isPrefixOf (c :: rest) then
        some (.jnull, (c :: rest).drop 4)
      else if ['t', 'r', 'u', 'e'].isPrefixOf (c :: rest) then
        some (.jbool true, (c :: rest).drop 4)
      else if ['f', 'a', 'l', 's', 'e'].isPrefixOf (c :: rest) then
        some (.jbool false, (c :: rest).drop 5)
      else
        match parseNum (c :: rest) with
        | none => none
        | some (n, r) => some (.jnum n, r)
  | fuel + 1, .objBody, cs =>
    match skipWs cs with
    | [] => none
    | c :: rest =>
      if c = rbrace then some (.jobj [], rest)
      else parseF fuel (.objMembers []) (c :: rest)
  | fuel + 1, .objMembers acc, cs =>
    match skipWs cs with
    | [] => none
    | c :: rest =>
      if c = dquote then
        match parseStringBody rest with
        | none => none
        | some (key, r1) =>
          match skipWs r1 with
          | ':' :: r2 =>
            match parseF fuel .val r2 with
            | none => none
            | some (v, r3) =>
              match skipWs r3 with
              | ',' :: r4 => parseF fuel (.objMembers (mset acc (String.mk key) v)) r4
              | c2 :: r4 =>
                if c2 = rbrace then some (.jobj (mset acc (String.mk key) v), r4)
                else none
              | [] => none
          | _ => none
      else none
  | fuel + 1, .arrBody, cs =>
    match skipWs cs with
    | [] => none
    | c :: rest =>
      if c = ']' then some (.jarr [], rest)
      else parseF fuel (.arrElems []) (c :: rest)
  | fuel + 1, .arrElems acc, cs =>
    match parseF fuel .val cs with
    | none => none
    | some (v, r) =>
      match skipWs r with
      | ',' :: r2 => parseF fuel (.arrElems (acc ++ [v])) r2
      | c :: r2 => if c = ']' then some (.jarr (acc ++ [v]), r2) else none
      | [] => none

/-- `json.loads`: parse a complete JSON document, rejecting trailing junk.
The fuel bound `3 * length + 3` covers every accepting derivation (each
chain of three recursive steps consumes at least one character), so fuel
exhaustion never rejects an input the grammar accepts. -/
def json_loads (cs : List Char) : Option JVal :=
  match parseF (3 * cs.length + 3) .val cs with
  | none => none
  | some (v, rest) => if (skipWs rest).isEmpty then some v else none

/-! ### `core/parsing.py` — `JSONParser` -/

namespace JSONParser

/-- `JSONParser.strip_json_code_block`: strip the surrounding whitespace, a
leading ```` ```json ```` fence and a trailing ```` ``` ```` fence. -/
def strip_json_code_block (s : List Char) : List Char :=
  let text := pyStrip s
  let fenceJson : List Char := "```json".data
  let fence : List Char := "```".data
  let text :=
    if fenceJson.isPrefixOf text then pyStrip (text.drop fenceJson.length) else text
  if fence.isSuffixOf text then pyStrip (text.take (text.length - fence.length)) else text

/-- `json_string.replace("'", '"')`. -/
def replaceSingleQuotes (s : List Char) : List Char :=
  s.map (fun c => if c = squote then dquote else c)

/-- Does the remainder match `\s*[}\]]`, the lookahead of the trailing-comma
regex? -/
def wsThenCloseBracket : List Char → Bool
  | [] => false
  | c :: rest =>
    if c = rbrace ∨ c = ']' then true
    else if pyWs c then wsThenCloseBracket rest else false

/-- `re.sub(r',(\s*[}\]])', r'\1', s)`: delete every comma that is followed
by optional whitespace and a closing brace or bracket (global, non-
overlapping, left to right — for this pattern, equivalent to the scan
below because a replacement never begins a new match). -/
def removeTrailingCommas : List Char → List Char
  | [] => []
  | c :: rest =>
    if c = ',' ∧ wsThenCloseBracket rest then removeTrailingCommas rest
    else c :: removeTrailingCommas rest

/-- The pure-text part of `JSONParser.attempt_fix_json`: replace single
quotes by double quotes, then drop trailing commas. -/
def fixTransform (s : List Char) : List Char :=
  removeTrailingCommas (replaceSingleQuotes s)

/-- `JSONParser.attempt_fix_json`: apply the repair transforms, then
`json.loads` the result. -/
def attempt_fix_json (s : List Char) : Option JVal :=
  json_loads (fixTransform s)

end JSONParser

/-! ### `core/llm_passes.py` — `MetadataExtractionSchema`

Embedded with pydantic-v2 semantics (the code uses the v2-only
`model_fields` API): a field annotated `Optional[T]` without a default is
required but nullable, extra keys are ignored, and `parse_obj` rejects
non-dict payloads. -/

/-- The validated output schema of one LLM pass. -/
structure MetadataExtractionSchema where
  purpose : Option String
  scope : Option String
  target_audience : Option String
  abbreviations : Option String
  governing_quality_module_or_global_standard : Option (List String)
  governing_documents : Option (List String)
  related_documents : Option (List String)
  referenced_documents : Option (List String)
  external_references : Option (List String)
deriving DecidableEq, Repr

/-- Validate an `Optional[str]` field: required, nullable, strings only
(pydantic v2 does not coerce numbers to `str` in lax mode). -/
def jOptStr : Option JVal → Option (Option String)
  | some .jnull => some none
  | some (.jstr s) => some (some s)
  | _ => none

/-- A `str` element of a list field; anything else is a validation error. -/
def jStrOnly : JVal → Option String
  | .jstr s => some s
  | _ => none

/-- Validate an `Optional[List[str]]` field: required, nullable, every
element must be a string. -/
def jOptStrList : Option JVal → Option (Option (List String))
  | some .jnull => some none
  | some (.jarr xs) => (xs.mapM jStrOnly).map some
  | _ => none

/-- `MetadataExtractionSchema.parse_obj`: validate a parsed JSON value
against the schema. -/
def MetadataExtractionSchema.parse_obj (v : JVal) : Option MetadataExtractionSchema :=
  match v with
  | .jobj fields => do
    let purpose ← jOptStr (mlookup fields "purpose")
    let scope ← jOptStr (mlookup fields "scope")
    let target_audience ← jOptStr (mlookup fields "target_audience")
    let abbreviations ← jOptStr (mlookup fields "abbreviations")
    let gqm ← jOptStrList (mlookup fields "governing_quality_module_or_global_standard")
    let gd ← jOptStrList (mlookup fields "governing_documents")
    let rd ← jOptStrList (mlookup fields "related_documents")
    let refd ← jOptStrList (mlookup fields "referenced_documents")
    let extr ← jOptStrList (mlookup fields "external_references")
    pure ⟨purpose, scope, target_audience, abbreviations, gqm, gd, rd, refd, extr⟩
  | _ => none

/-- `JSONParser.parse_and_validate`: strip code fences, run
`attempt_fix_json` (note: the repair transforms are applied
unconditionally — there is no preliminary strict parse), then validate
against the schema.  `JSONDecodeError`/`ValidationError` both surface as
`ValueError`, embedded as `Except.error`. -/
def JSONParser.parse_and_validate (s : String) : Except Unit MetadataExtractionSchema :=
  match JSONParser.attempt_fix_json (JSONParser.strip_json_code_block s.data) with
  | none => .error ()
  | some v =>
    match MetadataExtractionSchema.parse_obj v with
    | none => .error ()
    | some r => .ok r

/-! ### `core/parsing.py` — `JSONCleaner.replace_none_values` -/

namespace JSONCleaner

/-- The scalar-text keys of `JSONCleaner.replace_none_values`. -/
def str_keys : List String :=
  ["name", "version", "document_type", "status", "language", "title",
   "global_doc_ind", "purpose", "scope", "target_audience", "abbreviations",
   "quality_system", "process", "scopes", "entities", "owner_department"]

/-- The list-valued keys of `JSONCleaner.replace_none_values`. -/
def list_keys : List String :=
  ["governing_quality_module_or_global_standard", "related_documents",
   "referenced_documents", "external_references", "governing_documents"]

/-- The per-entry transform of `replace_none_values`: `None` becomes `[]`
for list keys and `''` for string keys; a list value is deduplicated
(`list(set(value))` — embedded order-preservingly, since only membership
matters downstream and Python's set order is unspecified). -/
def replaceNoneTransform (k : String) (v : JVal) : JVal :=
  match v with
  | .jnull =>
    if k ∈ list_keys then .jarr []
    else if k ∈ str_keys then .jstr ""
    else .jnull
  | .jarr xs => .jarr xs.dedup
  | other => other

/-- `JSONCleaner.replace_none_values`: normalize every entry of the parsed
mapping in place. -/
def replace_none_values (data : RecordMap) : RecordMap :=
  data.map (fun kv => (kv.1, replaceNoneTransform kv.1 kv.2))

end JSONCleaner

/-! ### `core/chunking.py` — `HeadTailChunker` -/

/-- `text[:n]` (Python slice, `n ≥ 0`). -/
def pySliceTo (s : List Char) (n : Nat) : List Char := s.take n

/-- `text[-n:]` (Python slice): the last `n` characters — except that
`text[-0:]` is the whole text, as in Python. -/
def pySliceFromNeg (s : List Char) (n : Nat) : List Char :=
  if n = 0 then s else s.drop (s.length - n)

/-- The head+tail chunker configuration. -/
structure HeadTailChunker where
  max_length : Nat
  head_length : Nat
deriving DecidableEq, Repr

/-- `HeadTailChunker.__init__`: construction fails (raises `ValueError`)
when `2 * head_length > max_length`. -/
def HeadTailChunker.mk? (max_length head_length : Nat) : Option HeadTailChunker :=
  if head_length * 2 > max_length then none
  else some ⟨max_length, head_length⟩

/-- `HeadTailChunker.chunk`: a single head+tail excerpt for oversized text,
the text itself otherwise. -/
def HeadTailChunker.chunk (c : HeadTailChunker) (text : List Char) : List (List Char) :=
  if text.length > c.max_length then
    [pySliceTo text c.head_length ++ pySliceFromNeg text c.head_length]
  else [text]

/-! ### `core/cleaning.py` — `CleaningPipeline`, `PatternRemover`

A cleaner (`BaseCleaner.clean` with its configuration applied) is embedded
as a text transform; the pipeline folds the configured cleaners in order.
`re.sub(pattern, "", text)` is embedded for literal patterns (no regex
metacharacters), where it removes the non-overlapping occurrences of the
pattern scanning left to right — all the generality the theorems below
need, since cleaning configurations range over arbitrary transforms. -/

/-- A single cleaning step with its configuration applied. -/
abbrev Cleaner := String → String

/-- `CleaningPipeline.clean`: apply all cleaners in order, each receiving
the previous step's output. -/
def CleaningPipeline.clean (cleaners : List Cleaner) (text : String) : String :=
  cleaners.foldl (fun t c => c t) text

/-- `re.sub(pat, "", s)` for a literal (metacharacter-free) pattern:
remove non-overlapping occurrences, scanning left to right.  Fueled by the
input length so that it computes by `rfl`/`decide`. -/
def removeLiteralAux (pat : List Char) : Nat → List Char → List Char
  | 0, s => s
  | _, [] => []
  | fuel + 1, c :: rest =>
    if pat ≠ [] ∧ pat.isPrefixOf (c :: rest) then
      removeLiteralAux pat fuel ((c :: rest).drop pat.length)
    else c :: removeLiteralAux pat fuel rest

/-- `re.sub(pat, "", s)` for a literal pattern. -/
def removeLiteral (pat s : List Char) : List Char :=
  removeLiteralAux pat (s.length + 1) s

/-- `PatternRemover.clean` for a configuration whose `patterns_to_remove`
are literal strings: delete each pattern in order. -/
def PatternRemover.clean (patterns : List (List Char)) (s : List Char) : List Char :=
  patterns.foldl (fun t p => removeLiteral p t) s

/-- `PatternRemover` as a pipeline step over `String`. -/
def patternRemoverCleaner (patterns : List (List Char)) : Cleaner :=
  fun s => String.mk (PatternRemover.clean patterns s.data)

/-! ### `core/references.py` — `RegexReferenceExtractor`

The regex engine is external: each configured pattern is embedded as an
oracle from the text to either its `re.findall` match list or an exception
(`Except.error`), and the optional `standardize_func` likewise may raise. -/

/-- A generic pattern-based reference extractor. -/
structure RegexReferenceExtractor where
  patterns : List (String → Except Unit (List String))
  standardize_func : Option (String → Except Unit String)

/-- The body of the `try` block of `extract_references`: fold the patterns
in order, collecting (standardized) matches; any raise aborts the fold. -/
def RegexReferenceExtractor.collectMatches (ext : RegexReferenceExtractor)
    (text : String) : Except Unit (List String) :=
  ext.patterns.foldlM (fun acc pat => do
    let ms ← pat text
    let ms ←
      match ext.standardize_func with
      | some f => ms.mapM f
      | none => pure ms
    pure (acc ++ ms)) []

/-- `RegexReferenceExtractor.extract_references`: all matches of all
patterns, deduplicated (`list(set(all_matches))`, embedded
order-preservingly); any exception during matching yields the empty
accumulator instead. -/
def RegexReferenceExtractor.extract_references (ext : RegexReferenceExtractor)
    (text : String) : List String :=
  (match ext.collectMatches text with
   | .ok all_matches => all_matches
   | .error _ => []).dedup

/-! ### `json.dumps` (used between passes to stringify a pass's output) -/

/-- Escape the characters `json.dumps` must escape in the embedded fragment
(backslash and double quote; control-character escapes are outside the
fragment the pipeline exercises). -/
def escapeChars : List Char → List Char
  | [] => []
  | c :: rest =>
    if c = dquote ∨ c = bslash then bslash :: c :: escapeChars rest
    else c :: escapeChars rest

/-- A JSON string literal. -/
def dumpsStr (s : String) : String :=
  String.mk (dquote :: escapeChars s.data ++ [dquote])

mutual

/-- `json.dumps` with its default separators (`", "` and `": "`). -/
def dumpsJVal : JVal → String
  | .jnull => "null"
  | .jbool true => "true"
  | .jbool false => "false"
  | .jnum n => toString n
  | .jstr s => dumpsStr s
  | .jarr xs => "[" ++ dumpsArr xs ++ "]"
  | .jobj fs => String.mk [lbrace] ++ dumpsFields fs ++ String.mk [rbrace]

/-- Serialize array elements. -/
def dumpsArr : List JVal → String
  | [] => ""
  | [v] => dumpsJVal v
  | v :: rest => dumpsJVal v ++ ", " ++ dumpsArr rest

/-- Serialize object fields. -/
def dumpsFields : List (String × JVal) → String
  | [] => ""
  | [(k, v)] => dumpsStr k ++ ": " ++ dumpsJVal v
  | (k, v) :: rest => dumpsStr k ++ ": " ++ dumpsJVal v ++ ", " ++ dumpsFields rest

end

/-! ### `core/llm_passes.py` — `LLMPassPipeline.run_pipeline`

One pass execution (`BaseLLMPass.run_pass` against a model configuration)
is an external, possibly failing call: it is embedded as an oracle from the
attempt index and the input content to either the cleaned pass output or an
exception.  The primary (SLM) oracle is indexed by the attempt number so
that "the client raises on every invocation" is expressible; the fallback
(LLM) configuration is tried at most once, so its oracle takes only the
content. -/

/-- One LLM pass with its primary and fallback execution behaviour. -/
structure PassSpec where
  primaryRun : Nat → String → Option RecordMap
  fallbackRun : String → Option RecordMap

/-- The outcome of `run_pipeline`, instrumented with the number of primary
and fallback pass executions that were issued. -/
structure PipelineResult where
  result : Except Unit RecordMap
  primaryCalls : Nat
  fallbackCalls : Nat
deriving Repr

/-- `for attempt in range(attempts)` with `break` on success: try the
oracle at successive attempt indices; return the first success and the
number of calls issued. -/
def tryAttempts (oracle : Nat → Option RecordMap) : Nat → Nat → Option RecordMap × Nat
  | 0, _ => (none, 0)
  | n + 1, k =>
    match oracle k with
    | some out => (some out, 1)
    | none =>
      let r := tryAttempts oracle n (k + 1)
      (r.1, r.2 + 1)

/-- The pass loop of `run_pipeline`: per pass, retry the primary model up
to `attempts` times, then optionally try the fallback model once; on
success the stringified output feeds the next pass and is merged
(last-writer-wins) into the accumulated result; otherwise the pipeline
raises. -/
def runPipelineAux (attempts : Nat) (enable_fallback : Bool) :
    List PassSpec → String → RecordMap → Nat → Nat → PipelineResult
  | [], _, final_output, p, f => ⟨.ok final_output, p, f⟩
  | llm_pass :: restPasses, current_content, final_output, p, f =>
    let tried := tryAttempts (fun k => llm_pass.primaryRun k current_content) attempts 0
    match tried.1 with
    | some pass_output =>
      runPipelineAux attempts enable_fallback restPasses
        (dumpsJVal (.jobj pass_output)) (mupdate final_output pass_output)
        (p + tried.2) f
    | none =>
      if enable_fallback then
        match llm_pass.fallbackRun current_content with
        | some pass_output =>
          runPipelineAux attempts enable_fallback restPasses
            (dumpsJVal (.jobj pass_output)) (mupdate final_output pass_output)
            (p + tried.2) (f + 1)
        | none => ⟨.error (), p + tried.2, f + 1⟩
      else ⟨.error (), p + tried.2, f⟩

/-- `LLMPassPipeline.run_pipeline`. -/
def LLMPassPipeline.run_pipeline (passes : List PassSpec) (initial_content : String)
    (attempts : Nat) (enable_fallback : Bool) : PipelineResult :=
  runPipelineAux attempts enable_fallback passes initial_content [] 0 0

/-! ### `core/schema.py` — `DocumentMetadata`, `Document`, `SchemaMapper`

`DocumentMetadata` is embedded as its field dictionary (`.dict()` view):
construction (`DocumentMetadata(**kwargs)`) validates the declared fields
— required `str` fields must be present as strings, `Optional[str]` fields
default to `None`, `List[str]` fields default to `[]` and must be lists of
strings — and carries extra keys through unchanged (`extra = "allow"`),
following pydantic-v2 semantics (the code uses the v2-only `model_fields`).
-/

/-- The pydantic kind of a declared `DocumentMetadata` field. -/
inductive FieldKind where
  | reqStr : FieldKind
  | optStr : FieldKind
  | listStr : FieldKind
deriving DecidableEq, Repr

/-- The declared fields of `DocumentMetadata`, in declaration order. -/
def documentMetadataFields : List (String × FieldKind) :=
  [("name", .reqStr), ("version", .reqStr), ("status", .reqStr),
   ("global_doc_ind", .optStr), ("document_type", .reqStr), ("language", .reqStr),
   ("title", .optStr), ("purpose", .optStr), ("scope", .optStr),
   ("target_audience", .optStr), ("abbreviations", .optStr),
   ("governing_quality_module_or_global_standard", .listStr),
   ("governing_documents", .listStr), ("related_documents", .listStr),
   ("referenced_documents", .listStr), ("external_references", .listStr),
   ("quality_system", .optStr), ("process", .optStr), ("scopes", .optStr),
   ("entities", .optStr), ("owner_department", .optStr)]

/-- `DocumentMetadata.model_fields` as a key list. -/
def documentMetadataFieldNames : List String :=
  documentMetadataFields.map Prod.fst

/-- Is every element of the list a string? (`List[str]` validation). -/
def allStrings (xs : List JVal) : Bool :=
  xs.all fun v => match v with | .jstr _ => true | _ => false

/-- Validate one declared field against the value supplied for it (or
`none` when the key is absent, which selects the default). -/
def validateField : FieldKind → Option JVal → Option JVal
  | .reqStr, some (.jstr s) => some (.jstr s)
  | .reqStr, _ => none
  | .optStr, none => some .jnull
  | .optStr, some .jnull => some .jnull
  | .optStr, some (.jstr s) => some (.jstr s)
  | .optStr, _ => none
  | .listStr, none => some (.jarr [])
  | .listStr, some (.jarr xs) => if allStrings xs then some (.jarr xs) else none
  | .listStr, _ => none

/-- Validate the declared fields, in declaration order. -/
def mkDeclaredFields (kwargs : RecordMap) : List (String × FieldKind) → Option RecordMap
  | [] => some []
  | (k, kind) :: rest =>
    match validateField kind (mlookup kwargs k), mkDeclaredFields kwargs rest with
    | some v, some tail => some ((k, v) :: tail)
    | _, _ => none

/-- `DocumentMetadata(**kwargs)`, as its `.dict()` view: the validated
declared fields followed by the extra keys; `none` embeds a
`ValidationError`. -/
def mkDocumentMetadata (kwargs : RecordMap) : Option RecordMap :=
  match mkDeclaredFields kwargs documentMetadataFields with
  | none => none
  | some declared =>
    some (declared ++ kwargs.filter (fun kv => ¬ kv.1 ∈ documentMetadataFieldNames))

/-- `Document`: the loaded input document. -/
structure Document where
  id : String
  filename : String
  text_content : String
  raw_data : RecordMap
  initial_metadata : RecordMap
deriving Repr

/-- `SchemaMapper.map`: project the record onto the output field set, in
the order of the configured canonical→output map.  (At the point the
orchestrator calls it the record has passed through
`DocumentMetadata(**metadata_dict)` reconstruction, so every declared
field is set and `exclude_unset` excludes nothing.) -/
def SchemaMapper.map (output_schema_map : List (String × String))
    (metadata : RecordMap) : RecordMap :=
  output_schema_map.foldl (fun output kv =>
    match mlookup metadata kv.1 with
    | some v => output ++ [(kv.2, v)]
    | none => output) []

/-! ### `core/postproc.py` — `MetadataPostProcessor` -/

namespace MetadataPostProcessor

/-- The reference-bearing keys re-processed by the post-processor (mirrors
`JSONCleaner.apply_reference_extraction`). -/
def specific_keys : List String :=
  ["governing_quality_module_or_global_standard", "governing_documents",
   "related_documents", "referenced_documents", "external_references"]

/-- Re-extract one reference-bearing value: a list contributes the matches
of each string item, a string its own matches, anything else nothing; the
result is the deduplicated reference list. -/
def reprocessValue (extractor : String → List String) (v : JVal) : JVal :=
  let extracted_refs : List String :=
    match v with
    | .jarr items =>
      items.foldl (fun (acc : List String) (item : JVal) =>
        match item with
        | .jstr s => acc ++ extractor s
        | _ => acc) []
    | .jstr s => extractor s
    | _ => []
  .jarr ((extracted_refs.dedup).map .jstr)

/-- `MetadataPostProcessor.apply_references_to_fields` on the `.dict()`
view, given the resolved extractor (`none` when the named extractor was
not registered — then the step is skipped). -/
def apply_references_to_fields (extractor : Option (String → List String))
    (metadata : RecordMap) : RecordMap :=
  match extractor with
  | none => metadata
  | some ext =>
    specific_keys.foldl (fun md key =>
      match mlookup md key with
      | none => md
      | some .jnull => md
      | some v => mset md key (reprocessValue ext v)) metadata

/-- `MetadataPostProcessor.force_inject_filename_metadata`, on the
`.dict()` view: overwrite every filename-derived entry whose key is a
declared `DocumentMetadata` field. -/
def force_inject_filename_metadata (metadata : RecordMap)
    (filename_metadata : RecordMap) : RecordMap :=
  filename_metadata.foldl (fun md kv =>
    if kv.1 ∈ documentMetadataFieldNames then mset md kv.1 kv.2 else md) metadata

end MetadataPostProcessor

/-! ### `core/pipeline.py` — `MetadataPipeline.run`

The collaborators the orchestrator receives through its constructor
(loader, filename parser, cleaning pipeline, chunker, model client wrapped
by `LLMPassPipeline.run_pipeline`, fallback mechanism, reference
extractor) are embedded as oracle fields of an environment record, exactly
the constructor injection of the source.  Each stage that can raise is
`Except`-valued; the whole run is wrapped in `try/except` returning `None`
(`Option.none`).  `run` is additionally instrumented with a flag recording
whether `fallback_mechanism.extract` was invoked. -/

/-- What `llm_pass_pipeline.run_pipeline(...)` did: returned a mapping,
raised `ValueError` (caught, becoming `{}`), or raised anything else
(uncaught by the inner handler, so the run fails). -/
inductive LLMOutcome where
  | ok : RecordMap → LLMOutcome
  | valueError : LLMOutcome
  | otherError : LLMOutcome

/-- The orchestrator with its injected collaborators. -/
structure OrchestratorEnv where
  /-- `document_loader().load(raw_document_source, filename)` (the source
  name `filename_parser`-style fields are kept where the token rules
  allow). -/
  load : Except Unit Document
  /-- `filename_parser.parse(document.filename)` (field renamed from the
  source's `filename_parser`). -/
  parseFilename : String → Except Unit RecordMap
  /-- `cleaning_pipeline.clean(document.text_content, config)`. -/
  cleanStage : String → Except Unit String
  /-- `chunker.chunk(cleaned_markdown)`. -/
  chunkStage : String → Except Unit (List String)
  /-- `llm_pass_pipeline.run_pipeline(...)` on the chunked content. -/
  llmStage : String → LLMOutcome
  /-- the optional `fallback_mechanism`; `extract` returns an optional
  mapping. -/
  fallbackMech : Option (Document → Option RecordMap)
  /-- the post-processor's resolved reference extractor. -/
  refExtractor : Option (String → List String)
  /-- `schema_mapper`'s canonical→output field map. -/
  output_schema_map : List (String × String)
  /-- the externally supplied `metadata_total` mapping. -/
  metadata_total : RecordMap
  /-- the externally supplied `f1_metadata` mapping. -/
  f1_metadata : RecordMap

/-- Lines 122-123 of `pipeline.py`: drop from the LLM mapping every key
already present in the document's (updated) initial metadata. -/
def filterLLMKeys (initial_metadata llm : RecordMap) : RecordMap :=
  llm.filter (fun kv => (mlookup initial_metadata kv.1).isNone)

/-- Lines 126-129: the keyword arguments of
`DocumentMetadata(**document.initial_metadata, **llm_extracted_metadata_dict)`. -/
def intermediateKwargs (initial_metadata llm : RecordMap) : RecordMap :=
  initial_metadata ++ filterLLMKeys initial_metadata llm

/-- Lines 133-139: overwrite the `metadata_total`/`f1_metadata`-sourced
attributes (`dict.get` returns `None` when the key is absent). -/
def setExternalFields (md metadata_total f1_metadata : RecordMap) : RecordMap :=
  let md := mset md "global_doc_ind" ((mlookup metadata_total "global_document_ind").getD .jnull)
  let md := mset md "title" ((mlookup f1_metadata "title").getD .jnull)
  let md := mset md "quality_system" ((mlookup f1_metadata "quality_system").getD .jnull)
  let md := mset md "process" ((mlookup f1_metadata "process").getD .jnull)
  let md := mset md "scopes" ((mlookup f1_metadata "scopes").getD .jnull)
  let md := mset md "entities" ((mlookup f1_metadata "entities").getD .jnull)
  mset md "owner_department" ((mlookup f1_metadata "owner_department").getD .jnull)

/-- Lines 122-154 of `MetadataPipeline.run`: merge, construct the
intermediate record, attach external metadata, post-process and map.  The
Boolean passed through is the fallback-invocation flag. -/
def continueRun (env : OrchestratorEnv) (doc : Document)
    (filename_metadata llm_extracted : RecordMap) (fb : Bool) :
    Option RecordMap × Bool :=
  match mkDocumentMetadata (intermediateKwargs doc.initial_metadata llm_extracted) with
  | none => (none, fb)
  | some intermediate0 =>
    match mkDocumentMetadata
        (MetadataPostProcessor.apply_references_to_fields env.refExtractor
          (setExternalFields intermediate0 env.metadata_total env.f1_metadata)) with
    | none => (none, fb)
    | some processed =>
      match mkDocumentMetadata
          (MetadataPostProcessor.force_inject_filename_metadata processed filename_metadata) with
      | none => (none, fb)
      | some processed2 =>
        (some (SchemaMapper.map env.output_schema_map processed2), fb)

/-- Line 69: `document.initial_metadata.update(filename_metadata)` — the
document as it stands when the LLM stage and fallback mechanism see it. -/
def updatedDoc (document : Document) (filename_metadata : RecordMap) : Document :=
  { document with
      initial_metadata := mupdate document.initial_metadata filename_metadata }

/-- Lines 107-120: the fallback block, reached when the LLM mapping is
falsy.  With no mechanism configured the orchestrator raises (caught by
the outer handler); otherwise `extract` is invoked once and a falsy result
(absent or empty) leaves the empty mapping in place. -/
def fallbackStep (env : OrchestratorEnv) (doc : Document)
    (filename_metadata : RecordMap) : Option RecordMap × Bool :=
  match env.fallbackMech with
  | none => (none, false)
  | some extract =>
    continueRun env doc filename_metadata
      (match extract doc with
       | some m => if m.isEmpty then [] else m
       | none => []) true

/-- `MetadataPipeline.run`: the whole orchestration, returning the mapped
output or `None`, plus the fallback-invocation flag. -/
def MetadataPipeline.run (env : OrchestratorEnv) : Option RecordMap × Bool :=
  match env.load with
  | .error _ => (none, false)
  | .ok document =>
    match env.parseFilename document.filename with
    | .error _ => (none, false)
    | .ok filename_metadata =>
      match env.cleanStage document.text_content with
      | .error _ => (none, false)
      | .ok cleaned_markdown =>
        match env.chunkStage cleaned_markdown with
        | .error _ => (none, false)
        | .ok chunks =>
          match env.llmStage (chunks.headD "") with
          | .otherError => (none, false)
          | .valueError =>
            fallbackStep env (updatedDoc document filename_metadata) filename_metadata
          | .ok m =>
            if m.isEmpty then
              fallbackStep env (updatedDoc document filename_metadata) filename_metadata
            else
              continueRun env (updatedDoc document filename_metadata) filename_metadata
                m false

/-! ## Theorems -/

/-! ### Support lemmas -/

theorem mlookup_mapValues (data : RecordMap) (f : String → JVal → JVal) (k : String) :
    mlookup (data.map (fun kv => (kv.1, f kv.1 kv.2))) k = (mlookup data k).map (f k) := by
  induction data with
  | nil => rfl
  | cons kv rest ih =>
    obtain ⟨k1, v1⟩ := kv
    by_cases h : k1 = k
    · subst h
      simp [mlookup]
    · simp [mlookup, h, ih]

/-! ### C3 — chunker boundary law -/

/-- C3, counterexample: the constructor accepts `max_length = 0,
head_length = 0`; on the oversized text `"a"` (length 1 > 0) the sole chunk
is `text[:0] + text[-0:] = "a"` — Python's `text[-0:]` is the whole text —
whose length 1 is not `2 * head_length = 0`. -/
theorem chunk_length_counterexample :
    HeadTailChunker.mk? 0 0 = some ⟨0, 0⟩
    ∧ (['a'] : List Char).length > 0
    ∧ HeadTailChunker.chunk ⟨0, 0⟩ ['a'] = [['a']]
    ∧ (['a'] : List Char).length ≠ 2 * 0 := by
  exact ⟨rfl, by decide, rfl, by decide⟩

/-- C3, amended (the length clause requires `head_length ≥ 1`, the case
`head_length = 0` being the counterexample above): for a successfully
constructed chunker, text within `max_length` is returned unchanged as the
sole chunk; oversized text yields the single chunk
`text[:head] + text[-head:]`, of length exactly `2 * head` whenever
`head ≥ 1`; and construction with `2 * head > max` fails. -/
theorem chunk_boundary_law (max_length head_length : Nat) (c : HeadTailChunker)
    (hmk : HeadTailChunker.mk? max_length head_length = some c) (text : List Char) :
    (text.length ≤ max_length → c.chunk text = [text])
    ∧ (text.length > max_length →
        c.chunk text = [pySliceTo text head_length ++ pySliceFromNeg text head_length]
        ∧ (1 ≤ head_length →
            (pySliceTo text head_length ++ pySliceFromNeg text head_length).length
              = 2 * head_length))
    ∧ (∀ m h : Nat, 2 * h > m → HeadTailChunker.mk? m h = none) := by
  have hcond : ¬ head_length * 2 > max_length := by
    intro hgt
    simp [HeadTailChunker.mk?, hgt] at hmk
  have hc : c = ⟨max_length, head_length⟩ := by
    simp [HeadTailChunker.mk?, hcond] at hmk
    exact hmk.symm
  subst hc
  refine ⟨?_, ?_, ?_⟩
  · intro hle
    simp [HeadTailChunker.chunk, Nat.not_lt.mpr hle]
  · intro hgt
    refine ⟨by simp [HeadTailChunker.chunk, hgt], ?_⟩
    intro h1
    have hlen : head_length ≤ text.length := by omega
    have hne : ¬ head_length = 0 := by omega
    simp [pySliceTo, pySliceFromNeg, hne, List.length_append, List.length_take,
      List.length_drop]
    omega
  · intro m h hgt
    simp [HeadTailChunker.mk?]
    omega

/-- Witness for the amended C3 at `max_length = 2, head_length = 1,
text = "abc"`. -/
theorem chunk_boundary_law_witness :
    HeadTailChunker.chunk ⟨2, 1⟩ ['a', 'b', 'c'] = [['a', 'c']]
    ∧ (pySliceTo ['a', 'b', 'c'] 1 ++ pySliceFromNeg ['a', 'b', 'c'] 1).length = 2 * 1 := by
  have h := (chunk_boundary_law 2 1 ⟨2, 1⟩ rfl ['a', 'b', 'c']).2.1 (by decide)
  exact ⟨by rw [h.1]; rfl, h.2 (by decide)⟩

/-! ### C5 — null-normalization law -/

/-- C5: after `replace_none_values`, no canonical list-typed or string-typed
key holds `null`, and every list value is duplicate-free. -/
theorem replace_none_values_normalization (data : RecordMap) (k : String) :
    (k ∈ JSONCleaner.list_keys ∨ k ∈ JSONCleaner.str_keys →
      mlookup (JSONCleaner.replace_none_values data) k ≠ some .jnull)
    ∧ (∀ xs, mlookup (JSONCleaner.replace_none_values data) k = some (.jarr xs) →
        xs.Nodup) := by
  constructor
  · intro hk heq
    rw [JSONCleaner.replace_none_values, mlookup_mapValues] at heq
    cases hv : mlookup data k with
    | none => rw [hv] at heq; simp at heq
    | some v =>
      rw [hv] at heq
      have heq2 : JSONCleaner.replaceNoneTransform k v = .jnull := by
        simpa using heq
      cases v with
      | jnull =>
        rcases hk with hk | hk
        · simp [JSONCleaner.replaceNoneTransform, hk] at heq2
        · by_cases hl : k ∈ JSONCleaner.list_keys
          · simp [JSONCleaner.replaceNoneTransform, hl] at heq2
          · simp [JSONCleaner.replaceNoneTransform, hl, hk] at heq2
      | jbool b => simp [JSONCleaner.replaceNoneTransform] at heq2
      | jnum n => simp [JSONCleaner.replaceNoneTransform] at heq2
      | jstr s => simp [JSONCleaner.replaceNoneTransform] at heq2
      | jarr xs => simp [JSONCleaner.replaceNoneTransform] at heq2
      | jobj fs => simp [JSONCleaner.replaceNoneTransform] at heq2
  · intro xs heq
    rw [JSONCleaner.replace_none_values, mlookup_mapValues] at heq
    cases hv : mlookup data k with
    | none => rw [hv] at heq; simp at heq
    | some v =>
      rw [hv] at heq
      have heq2 : JSONCleaner.replaceNoneTransform k v = .jarr xs := by
        simpa using heq
      cases v with
      | jnull =>
        by_cases hl : k ∈ JSONCleaner.list_keys
        · simp [JSONCleaner.replaceNoneTransform, hl] at heq2
          subst heq2
          exact List.nodup_nil
        · by_cases hs : k ∈ JSONCleaner.str_keys
          · simp [JSONCleaner.replaceNoneTransform, hl, hs] at heq2
          · simp [JSONCleaner.replaceNoneTransform, hl, hs] at heq2
      | jbool b => simp [JSONCleaner.replaceNoneTransform] at heq2
      | jnum n => simp [JSONCleaner.replaceNoneTransform] at heq2
      | jstr s => simp [JSONCleaner.replaceNoneTransform] at heq2
      | jarr ys =>
        simp [JSONCleaner.replaceNoneTransform] at heq2
        subst heq2
        exact List.nodup_dedup ys
      | jobj fs => simp [JSONCleaner.replaceNoneTransform] at heq2

/-- Witness for C5 on a concrete parsed mapping with a `null` list field, a
`null` string field and a duplicated list. -/
theorem replace_none_values_normalization_witness :
    mlookup (JSONCleaner.replace_none_values
        [("governing_documents", .jnull), ("purpose", .jnull),
         ("related_documents", .jarr [.jstr "SOP-1", .jstr "SOP-1"])])
      "governing_documents" ≠ some .jnull
    ∧ ([JVal.jstr "SOP-1"] : List JVal).Nodup := by
  constructor
  · exact (replace_none_values_normalization _ "governing_documents").1 (Or.inl (by decide))
  · exact (replace_none_values_normalization
      [("governing_documents", .jnull), ("purpose", .jnull),
       ("related_documents", .jarr [.jstr "SOP-1", .jstr "SOP-1"])]
      "related_documents").2 [JVal.jstr "SOP-1"] (by rfl)

/-! ### C6 — reference dedup / exception absorption -/

/-- C6: `extract_references` never returns duplicates, and an exception
during pattern matching yields the empty collection. -/
theorem extract_references_dedup (ext : RegexReferenceExtractor) (text : String) :
    (ext.extract_references text).Nodup
    ∧ (ext.collectMatches text = .error () → ext.extract_references text = []) := by
  constructor
  · exact List.nodup_dedup _
  · intro h
    unfold RegexReferenceExtractor.extract_references
    rw [h]
    rfl

/-- Witness for C6: a pattern oracle that raises yields `[]`, and a
duplicated occurrence is returned once. -/
theorem extract_references_dedup_witness :
    RegexReferenceExtractor.extract_references ⟨[fun _ => .error ()], none⟩ "SOP-1 SOP-1" = []
    ∧ (RegexReferenceExtractor.extract_references
        ⟨[fun _ => .ok ["SOP-1", "SOP-1"]], none⟩ "SOP-1 SOP-1").Nodup := by
  constructor
  · exact (extract_references_dedup ⟨[fun _ => .error ()], none⟩ "SOP-1 SOP-1").2 rfl
  · exact (extract_references_dedup ⟨[fun _ => .ok ["SOP-1", "SOP-1"]], none⟩ "SOP-1 SOP-1").1

/-! ### C9 — cleaning idempotence -/

/-- C9, counterexample: with the configured removal pattern `"ab"`, cleaning
`"aabb"` once gives `"ab"` but cleaning twice gives `""` — the pattern
re-triggers after its own removal, so the pipeline is not idempotent for
every configuration. -/
theorem cleaning_not_idempotent :
    CleaningPipeline.clean [patternRemoverCleaner [['a', 'b']]] "aabb" = "ab"
    ∧ CleaningPipeline.clean [patternRemoverCleaner [['a', 'b']]]
        (CleaningPipeline.clean [patternRemoverCleaner [['a', 'b']]] "aabb") = ""
    ∧ ("" : String) ≠ "ab" := by
  refine ⟨rfl, rfl, by decide⟩

/-- C9, amended: the Cleaning Pipeline is idempotent on a given text
provided no step re-triggers on the pipeline's output (each cleaner leaves
the once-cleaned text fixed) — the spec's stated side condition. -/
theorem cleaning_idempotent_of_fixpoint (cleaners : List Cleaner) (text : String)
    (h : ∀ c ∈ cleaners,
      c (CleaningPipeline.clean cleaners text) = CleaningPipeline.clean cleaners text) :
    CleaningPipeline.clean cleaners (CleaningPipeline.clean cleaners text)
      = CleaningPipeline.clean cleaners text := by
  have aux : ∀ (cs : List Cleaner) (y : String), (∀ c ∈ cs, c y = y) →
      CleaningPipeline.clean cs y = y := by
    intro cs
    induction cs with
    | nil => intro y _; rfl
    | cons c rest ih =>
      intro y hy
      have h1 : c y = y := hy c (List.mem_cons_self c rest)
      have step : CleaningPipeline.clean (c :: rest) y = CleaningPipeline.clean rest (c y) :=
        rfl
      rw [step, h1]
      exact ih y (fun c2 hc2 => hy c2 (List.mem_cons_of_mem c hc2))
  exact aux cleaners (CleaningPipeline.clean cleaners text) h

/-- Witness for the amended C9: the pattern `"xy"` never re-triggers on
`"ab"`, so cleaning is idempotent there. -/
theorem cleaning_idempotent_of_fixpoint_witness :
    CleaningPipeline.clean [patternRemoverCleaner [['x', 'y']]]
      (CleaningPipeline.clean [patternRemoverCleaner [['x', 'y']]] "ab")
      = CleaningPipeline.clean [patternRemoverCleaner [['x', 'y']]] "ab" := by
  apply cleaning_idempotent_of_fixpoint
  intro c hc
  have hcc : c = patternRemoverCleaner [['x', 'y']] := by simpa using hc
  subst hcc
  rfl

/-! ### C1 — retry/fallback exhaustion in `run_pipeline` -/

theorem tryAttempts_allFail (oracle : Nat → Option RecordMap)
    (h : ∀ k, oracle k = none) : ∀ n k0, tryAttempts oracle n k0 = (none, n) := by
  intro n
  induction n with
  | zero => intro k0; rfl
  | succ n ih =>
    intro k0
    simp [tryAttempts, h k0, ih (k0 + 1)]

/-- C1: when every primary invocation of the first pass raises and
`attempts = 3`, `run_pipeline` with `enable_fallback = False` raises the
extraction-failure error after exactly 3 primary attempts and 0 fallback
attempts; with `enable_fallback` set, the fallback configuration is
attempted exactly once after the 3 failed primary attempts. -/
theorem run_pipeline_retry_fallback_exhaustion (p : PassSpec) (rest : List PassSpec)
    (content : String) (hfail : ∀ k c, p.primaryRun k c = none) :
    LLMPassPipeline.run_pipeline (p :: rest) content 3 false
      = ⟨.error (), 3, 0⟩
    ∧ (LLMPassPipeline.run_pipeline [p] content 3 true).primaryCalls = 3
    ∧ (LLMPassPipeline.run_pipeline [p] content 3 true).fallbackCalls = 1 := by
  have htry : tryAttempts (fun k => p.primaryRun k content) 3 0 = (none, 3) :=
    tryAttempts_allFail _ (fun k => hfail k content) 3 0
  refine ⟨?_, ?_, ?_⟩
  · show runPipelineAux 3 false (p :: rest) content [] 0 0 = _
    simp [runPipelineAux, htry]
  · show (runPipelineAux 3 true [p] content [] 0 0).primaryCalls = 3
    cases hfb : p.fallbackRun content with
    | some out => simp [runPipelineAux, htry, hfb]
    | none => simp [runPipelineAux, htry, hfb]
  · show (runPipelineAux 3 true [p] content [] 0 0).fallbackCalls = 1
    cases hfb : p.fallbackRun content with
    | some out => simp [runPipelineAux, htry, hfb]
    | none => simp [runPipelineAux, htry, hfb]

/-- Witness for C1: a concrete always-raising pass. -/
theorem run_pipeline_retry_fallback_exhaustion_witness :
    LLMPassPipeline.run_pipeline [⟨fun _ _ => none, fun _ => none⟩] "doc" 3 false
      = ⟨.error (), 3, 0⟩ :=
  (run_pipeline_retry_fallback_exhaustion ⟨fun _ _ => none, fun _ => none⟩ [] "doc"
    (fun _ _ => rfl)).1

/-! ### Lemmas on `DocumentMetadata` construction (for C4, C10) -/

theorem validateField_some_eq (kind : FieldKind) (v w : JVal)
    (h : validateField kind (some v) = some w) : w = v := by
  cases kind with
  | reqStr => cases v <;> simp [validateField] at h <;> exact h.symm
  | optStr => cases v <;> simp [validateField] at h <;> simp [h]
  | listStr =>
    cases v <;> simp [validateField] at h
    exact h.2.symm

theorem mkDeclaredFields_lookup (kwargs : RecordMap) (fs : List (String × FieldKind))
    (d : RecordMap) (hmk : mkDeclaredFields kwargs fs = some d)
    (k : String) (v : JVal) (hv : mlookup kwargs k = some v)
    (hmem : k ∈ fs.map Prod.fst) : mlookup d k = some v := by
  induction fs generalizing d with
  | nil => simp at hmem
  | cons kf rest ih =>
    obtain ⟨k1, kind1⟩ := kf
    cases hval : validateField kind1 (mlookup kwargs k1) with
    | none => rw [mkDeclaredFields, hval] at hmk; simp at hmk
    | some w =>
      cases htail : mkDeclaredFields kwargs rest with
      | none => rw [mkDeclaredFields, hval, htail] at hmk; simp at hmk
      | some tail =>
        rw [mkDeclaredFields, hval, htail] at hmk
        simp only [Option.some.injEq] at hmk
        subst hmk
        by_cases hk : k1 = k
        · subst hk
          rw [hv] at hval
          have hw : w = v := validateField_some_eq _ _ _ hval
          simp [mlookup, hw]
        · have hmem2 : k ∈ rest.map Prod.fst := by
            simpa [hk, Ne.symm hk] using hmem
          simp only [mlookup, if_neg hk]
          exact ih tail htail hmem2

theorem mkDeclaredFields_lookup_none (kwargs : RecordMap)
    (fs : List (String × FieldKind)) (d : RecordMap)
    (hmk : mkDeclaredFields kwargs fs = some d) (k : String)
    (hmem : k ∉ fs.map Prod.fst) : mlookup d k = none := by
  induction fs generalizing d with
  | nil =>
    rw [mkDeclaredFields] at hmk
    simp only [Option.some.injEq] at hmk
    subst hmk
    rfl
  | cons kf rest ih =>
    obtain ⟨k1, kind1⟩ := kf
    cases hval : validateField kind1 (mlookup kwargs k1) with
    | none => rw [mkDeclaredFields, hval] at hmk; simp at hmk
    | some w =>
      cases htail : mkDeclaredFields kwargs rest with
      | none => rw [mkDeclaredFields, hval, htail] at hmk; simp at hmk
      | some tail =>
        rw [mkDeclaredFields, hval, htail] at hmk
        simp only [Option.some.injEq] at hmk
        subst hmk
        simp only [List.map_cons, List.mem_cons, not_or] at hmem
        have hne : ¬ k1 = k := fun he => hmem.1 he.symm
        simp only [mlookup, if_neg hne]
        exact ih tail htail hmem.2

/-- A value present in the construction kwargs of
`DocumentMetadata(**kwargs)` survives into the constructed record
unchanged (declared fields pass validation unchanged when construction
succeeds; extra fields are carried through). -/
theorem mkDocumentMetadata_lookup (kwargs r : RecordMap)
    (hmk : mkDocumentMetadata kwargs = some r) (k : String) (v : JVal)
    (hv : mlookup kwargs k = some v) : mlookup r k = some v := by
  unfold mkDocumentMetadata at hmk
  cases hd : mkDeclaredFields kwargs documentMetadataFields with
  | none => rw [hd] at hmk; simp at hmk
  | some declared =>
    rw [hd] at hmk
    simp only [Option.some.injEq] at hmk
    subst hmk
    by_cases hk : k ∈ documentMetadataFieldNames
    · exact mlookup_append_left _ _ _ _
        (mkDeclaredFields_lookup kwargs documentMetadataFields declared hd k v hv hk)
    · rw [mlookup_append_right _ _ _
        (mkDeclaredFields_lookup_none kwargs documentMetadataFields declared hd k hk)]
      rw [mlookup_filter_of_key _ _ _ (fun w => by simpa using hk)]
      exact hv

/-! ### C4 — filename authority in the post-processor -/

theorem force_inject_not_mem (m fm : RecordMap) (k : String) (hk : k ∉ mkeys fm) :
    mlookup (MetadataPostProcessor.force_inject_filename_metadata m fm) k = mlookup m k := by
  induction fm generalizing m with
  | nil => rfl
  | cons kv rest ih =>
    obtain ⟨k1, v1⟩ := kv
    simp only [mkeys, List.map_cons, List.mem_cons, not_or] at hk
    have hstep : MetadataPostProcessor.force_inject_filename_metadata m ((k1, v1) :: rest)
        = MetadataPostProcessor.force_inject_filename_metadata
            (if k1 ∈ documentMetadataFieldNames then mset m k1 v1 else m) rest := rfl
    rw [hstep, ih _ (by simpa [mkeys] using hk.2)]
    by_cases hf : k1 ∈ documentMetadataFieldNames
    · simp only [if_pos hf]
      exact mlookup_mset_other m k k1 v1 (fun he => hk.1 he.symm)
    · simp only [if_neg hf]

theorem force_inject_lookup (m fm : RecordMap) (k : String) (v : JVal)
    (hnd : (mkeys fm).Nodup) (hv : mlookup fm k = some v)
    (hk : k ∈ documentMetadataFieldNames) :
    mlookup (MetadataPostProcessor.force_inject_filename_metadata m fm) k = some v := by
  induction fm generalizing m with
  | nil => simp [mlookup] at hv
  | cons kv rest ih =>
    obtain ⟨k1, v1⟩ := kv
    have hnd0 : (k1 :: List.map Prod.fst rest).Nodup := hnd
    have hnd1 : k1 ∉ List.map Prod.fst rest := (List.nodup_cons.mp hnd0).1
    have hnd2 : (mkeys rest).Nodup := (List.nodup_cons.mp hnd0).2
    have hstep : MetadataPostProcessor.force_inject_filename_metadata m ((k1, v1) :: rest)
        = MetadataPostProcessor.force_inject_filename_metadata
            (if k1 ∈ documentMetadataFieldNames then mset m k1 v1 else m) rest := rfl
    rw [hstep]
    by_cases hkk : k1 = k
    · subst hkk
      have hv1 : some v1 = some v := by rw [← hv]; simp [mlookup]
      rw [force_inject_not_mem _ _ _ (by simpa [mkeys] using hnd1)]
      simp only [if_pos hk]
      rw [mlookup_mset_self]
      exact hv1
    · have hv2 : mlookup rest k = some v := by rw [← hv]; simp [mlookup, hkk]
      exact ih _ hnd2 hv2

/-- C4: for every canonical record and filename-derived mapping, every key
present both in the filename mapping and in the canonical schema carries
the filename-derived value in the record returned by
`force_inject_filename_metadata`, whatever value the record held before. -/
theorem force_inject_filename_authority (metadata fm : RecordMap) (k : String) (v : JVal)
    (hnd : (mkeys fm).Nodup) (hk : k ∈ documentMetadataFieldNames)
    (hv : mlookup fm k = some v) (r : RecordMap)
    (hmk : mkDocumentMetadata
      (MetadataPostProcessor.force_inject_filename_metadata metadata fm) = some r) :
    mlookup r k = some v :=
  mkDocumentMetadata_lookup _ _ hmk k v (force_inject_lookup metadata fm k v hnd hv hk)

/-- Witness for C4: injecting a concrete filename mapping over an
LLM-derived `name` makes the filename value win. -/
theorem force_inject_filename_authority_witness :
    mlookup ((mkDocumentMetadata (MetadataPostProcessor.force_inject_filename_metadata
        [("name", JVal.jstr "LLM-GUESS"), ("version", JVal.jstr "9.9"),
         ("status", JVal.jstr "draft"), ("document_type", JVal.jstr "sop"),
         ("language", JVal.jstr "en")]
        [("name", JVal.jstr "SOP-0000001"), ("version", JVal.jstr "1.0")])).getD [])
      "name" = some (JVal.jstr "SOP-0000001") := by
  exact force_inject_filename_authority
    [("name", JVal.jstr "LLM-GUESS"), ("version", JVal.jstr "9.9"),
     ("status", JVal.jstr "draft"), ("document_type", JVal.jstr "sop"),
     ("language", JVal.jstr "en")]
    [("name", JVal.jstr "SOP-0000001"), ("version", JVal.jstr "1.0")]
    "name" (JVal.jstr "SOP-0000001") (by decide) (by decide) rfl _ rfl

/-! ### C10 — filename-derived keys are shielded from the LLM mapping -/

/-- C10: the orchestrator removes from the LLM mapping every key already
present in the document's initial metadata, so for every filename-derived
key the intermediate record's value is the filename-derived one, whatever
the LLM returned for it. -/
theorem intermediate_metadata_filename_precedence
    (loader_metadata filename_metadata llm : RecordMap) (k : String) (v : JVal)
    (hnd : (mkeys filename_metadata).Nodup)
    (hv : mlookup filename_metadata k = some v) :
    mlookup (intermediateKwargs (mupdate loader_metadata filename_metadata) llm) k = some v
    ∧ ∀ r, mkDocumentMetadata
        (intermediateKwargs (mupdate loader_metadata filename_metadata) llm) = some r →
        mlookup r k = some v := by
  have hinit : mlookup (mupdate loader_metadata filename_metadata) k = some v :=
    mlookup_mupdate_of_mem _ _ _ _ hnd hv
  have hmerge :
      mlookup (intermediateKwargs (mupdate loader_metadata filename_metadata) llm) k
        = some v :=
    mlookup_append_left _ _ _ _ hinit
  exact ⟨hmerge, fun r hr => mkDocumentMetadata_lookup _ _ hr k v hmerge⟩

/-- Witness for C10: a concrete merge where the LLM returned a conflicting
`name`. -/
theorem intermediate_metadata_filename_precedence_witness :
    mlookup (intermediateKwargs
        (mupdate [("name", JVal.jstr "LOADER")]
          [("name", JVal.jstr "SOP-0000001"), ("version", JVal.jstr "1.0"),
           ("status", JVal.jstr "approved"), ("document_type", JVal.jstr "sop"),
           ("language", JVal.jstr "en")])
        [("name", JVal.jstr "LLM-GUESS"), ("purpose", JVal.jstr "p")])
      "name" = some (JVal.jstr "SOP-0000001") := by
  exact (intermediate_metadata_filename_precedence [("name", JVal.jstr "LOADER")]
    [("name", JVal.jstr "SOP-0000001"), ("version", JVal.jstr "1.0"),
     ("status", JVal.jstr "approved"), ("document_type", JVal.jstr "sop"),
     ("language", JVal.jstr "en")]
    [("name", JVal.jstr "LLM-GUESS"), ("purpose", JVal.jstr "p")]
    "name" (JVal.jstr "SOP-0000001") (by decide) rfl).1

/-! ### C2 — repair ordering in `parse_and_validate` -/

/-- Already-valid JSON conforming to the schema whose `purpose` string
contains a comma followed by a closing bracket. -/
def directParseInput : String :=
  "\x7b\"purpose\": \"a, ]\", \"scope\": null, \"target_audience\": null, \"abbreviations\": null, \"governing_quality_module_or_global_standard\": null, \"governing_documents\": null, \"related_documents\": null, \"referenced_documents\": null, \"external_references\": null\x7d"

/-- The value `directParseInput` denotes under a strict parse. -/
def directParseVal : JVal :=
  .jobj [("purpose", .jstr "a, ]"), ("scope", .jnull), ("target_audience", .jnull),
    ("abbreviations", .jnull), ("governing_quality_module_or_global_standard", .jnull),
    ("governing_documents", .jnull), ("related_documents", .jnull),
    ("referenced_documents", .jnull), ("external_references", .jnull)]

/-- The record `directParseInput` denotes. -/
def directParseRec : MetadataExtractionSchema :=
  ⟨some "a, ]", none, none, none, none, none, none, none, none⟩

/-- The record `parse_and_validate` actually returns for it. -/
def repairedParseRec : MetadataExtractionSchema :=
  ⟨some "a ]", none, none, none, none, none, none, none, none⟩

set_option maxRecDepth 16384 in
/-- C2, counterexample: `directParseInput` is already valid JSON conforming
to the schema (a direct strict parse succeeds and validates to
`directParseRec`), yet `parse_and_validate` does not return the record it
denotes — the repair pass runs unconditionally and deletes the comma
inside the string value. -/
theorem parse_and_validate_repairs_valid_json :
    json_loads (JSONParser.strip_json_code_block directParseInput.data)
      = some directParseVal
    ∧ MetadataExtractionSchema.parse_obj directParseVal = some directParseRec
    ∧ JSONParser.parse_and_validate directParseInput = .ok repairedParseRec
    ∧ repairedParseRec ≠ directParseRec :=
  ⟨by rfl, by rfl, by rfl, by decide⟩

/-- C2, amended: the repair transforms are applied unconditionally before
the only parse; consequently an input that is already valid JSON
conforming to the schema is parsed to the record it denotes exactly when
the repair transforms leave it unchanged (no single quotes, no comma
followed by optional whitespace and a closing brace/bracket). -/
theorem parse_and_validate_of_fix_fixpoint (s : String) (v : JVal)
    (r : MetadataExtractionSchema)
    (hfix : JSONParser.fixTransform (JSONParser.strip_json_code_block s.data)
      = JSONParser.strip_json_code_block s.data)
    (hparse : json_loads (JSONParser.strip_json_code_block s.data) = some v)
    (hvalid : MetadataExtractionSchema.parse_obj v = some r) :
    JSONParser.parse_and_validate s = .ok r := by
  unfold JSONParser.parse_and_validate JSONParser.attempt_fix_json
  rw [hfix, hparse]
  simp [hvalid]

/-- Witness input for the amended C2: valid JSON untouched by the repair
transforms. -/
def benignParseInput : String :=
  "\x7b\"purpose\": null, \"scope\": null, \"target_audience\": null, \"abbreviations\": null, \"governing_quality_module_or_global_standard\": null, \"governing_documents\": null, \"related_documents\": null, \"referenced_documents\": null, \"external_references\": null\x7d"

set_option maxRecDepth 16384 in
/-- Witness for the amended C2. -/
theorem parse_and_validate_of_fix_fixpoint_witness :
    JSONParser.parse_and_validate benignParseInput
      = .ok ⟨none, none, none, none, none, none, none, none, none⟩ :=
  parse_and_validate_of_fix_fixpoint benignParseInput
    (.jobj [("purpose", .jnull), ("scope", .jnull), ("target_audience", .jnull),
      ("abbreviations", .jnull), ("governing_quality_module_or_global_standard", .jnull),
      ("governing_documents", .jnull), ("related_documents", .jnull),
      ("referenced_documents", .jnull), ("external_references", .jnull)])
    ⟨none, none, none, none, none, none, none, none, none⟩ (by rfl) (by rfl) (by rfl)

/-! ### Orchestrator lemmas (for C7, C8) -/

theorem continueRun_snd (env : OrchestratorEnv) (doc : Document)
    (fm llm : RecordMap) (fb : Bool) : (continueRun env doc fm llm fb).2 = fb := by
  unfold continueRun
  repeat' split
  all_goals rfl

theorem continueRun_fst_shape (env : OrchestratorEnv) (doc : Document)
    (fm llm : RecordMap) (fb : Bool) :
    (continueRun env doc fm llm fb).1 = none
    ∨ ∃ md, (continueRun env doc fm llm fb).1
        = some (SchemaMapper.map env.output_schema_map md) := by
  unfold continueRun
  repeat' split
  all_goals first
    | exact Or.inl rfl
    | exact Or.inr ⟨_, rfl⟩

theorem continueRun_fst_congr (env env' : OrchestratorEnv) (doc : Document)
    (fm llm : RecordMap) (fb fb' : Bool)
    (h1 : env'.refExtractor = env.refExtractor)
    (h2 : env'.output_schema_map = env.output_schema_map)
    (h3 : env'.metadata_total = env.metadata_total)
    (h4 : env'.f1_metadata = env.f1_metadata) :
    (continueRun env doc fm llm fb).1 = (continueRun env' doc fm llm fb').1 := by
  unfold continueRun
  rw [h1, h2, h3, h4]
  repeat' split
  all_goals rfl

theorem fallbackStep_snd (env : OrchestratorEnv) (doc : Document) (fm : RecordMap) :
    (fallbackStep env doc fm).2 = env.fallbackMech.isSome := by
  unfold fallbackStep
  split
  all_goals rename_i heq
  · rw [heq]; rfl
  · rw [continueRun_snd, heq]; rfl

theorem fallbackStep_none (env : OrchestratorEnv) (doc : Document) (fm : RecordMap)
    (h : env.fallbackMech = none) : fallbackStep env doc fm = (none, false) := by
  unfold fallbackStep
  rw [h]

theorem fallbackStep_fst_shape (env : OrchestratorEnv) (doc : Document)
    (fm : RecordMap) :
    (fallbackStep env doc fm).1 = none
    ∨ ∃ md, (fallbackStep env doc fm).1
        = some (SchemaMapper.map env.output_schema_map md) := by
  unfold fallbackStep
  split
  · exact Or.inl rfl
  · exact continueRun_fst_shape env doc fm _ true

/-! ### C8 — all-or-nothing runs -/

/-- C8: every pipeline run either returns the full mapped output of the
post-processed record (the schema mapper applied to a canonical record) or
the no-metadata signal `None`; in particular a load failure, or an
extraction failure with no fallback configured, yields `None` — never a
partial record. -/
theorem run_all_or_nothing (env : OrchestratorEnv) :
    ((MetadataPipeline.run env).1 = none
      ∨ ∃ md, (MetadataPipeline.run env).1
          = some (SchemaMapper.map env.output_schema_map md))
    ∧ (env.load = .error () → (MetadataPipeline.run env).1 = none)
    ∧ ((∀ c, env.llmStage c = .valueError) → env.fallbackMech = none →
        (MetadataPipeline.run env).1 = none) := by
  refine ⟨?_, ?_, ?_⟩
  · unfold MetadataPipeline.run
    repeat' split
    all_goals first
      | exact Or.inl rfl
      | exact fallbackStep_fst_shape env _ _
      | exact continueRun_fst_shape env _ _ _ false
  · intro hload
    unfold MetadataPipeline.run
    rw [hload]
  · intro hllm hfb
    unfold MetadataPipeline.run
    split
    · rfl
    split
    · rfl
    split
    · rfl
    split
    · rfl
    rw [hllm _]
    dsimp only
    rw [fallbackStep_none env _ _ hfb]

/-- Witness for C8 at an environment whose loader fails. -/
theorem run_all_or_nothing_witness :
    (MetadataPipeline.run
      { load := .error (), parseFilename := fun _ => .ok [],
        cleanStage := fun s => .ok s, chunkStage := fun s => .ok [s],
        llmStage := fun _ => .valueError, fallbackMech := none, refExtractor := none,
        output_schema_map := [], metadata_total := [], f1_metadata := [] }).1 = none :=
  (run_all_or_nothing _).2.1 rfl

/-! ### C7 — when the fallback mechanism is invoked -/

/-- A concrete orchestrator whose LLM stage is the real `run_pipeline` with
an empty pass list (which succeeds, returning `{}`) and which has a
fallback mechanism configured. -/
def fallbackDemoEnv : OrchestratorEnv where
  load := .ok ⟨"doc-1", "doc.txt", "text", [], []⟩
  parseFilename := fun _ => .ok
    [("name", .jstr "SOP-0000001"), ("version", .jstr "1.0"),
     ("status", .jstr "approved"), ("document_type", .jstr "sop"),
     ("language", .jstr "en")]
  cleanStage := fun s => .ok s
  chunkStage := fun s => .ok [s]
  llmStage := fun content =>
    match (LLMPassPipeline.run_pipeline [] content 3 false).result with
    | .ok m => .ok m
    | .error _ => .valueError
  fallbackMech := some (fun _ => none)
  refExtractor := none
  output_schema_map := [("name", "name")]
  metadata_total := []
  f1_metadata := []

/-- C7, counterexample: the LLM pass pipeline returns successfully (an
empty pass list yields `{}` without raising), yet the orchestrator invokes
the fallback mechanism's `extract` — the trigger is an empty mapping, not
an `ExtractionFailed` raise. -/
theorem fallback_invoked_after_successful_llm :
    (LLMPassPipeline.run_pipeline [] "text" 3 false).result = .ok []
    ∧ (MetadataPipeline.run fallbackDemoEnv).2 = true :=
  ⟨rfl, rfl⟩

/-- C7, amended: `extract` is invoked only when a fallback mechanism is
configured and the LLM stage yields an empty mapping (either by raising
`ExtractionFailed`, which the orchestrator converts to `{}`, or by
returning an empty mapping); a nonempty successful LLM result never
triggers it; and a present nonempty fallback result is carried into the
downstream stages exactly as a merged LLM result would be. -/
theorem fallback_invocation_policy (env : OrchestratorEnv) :
    ((MetadataPipeline.run env).2 = true → env.fallbackMech.isSome = true)
    ∧ ((∀ c : String, ∃ m : RecordMap, env.llmStage c = .ok m ∧ m ≠ []) →
        (MetadataPipeline.run env).2 = false)
    ∧ (∀ (f : Document → Option RecordMap) (m : RecordMap),
        (∀ c, env.llmStage c = .valueError) → env.fallbackMech = some f →
        (∀ d, f d = some m) → m ≠ [] →
        (MetadataPipeline.run env).1
          = (MetadataPipeline.run
              { env with llmStage := fun _ => LLMOutcome.ok m,
                         fallbackMech := none }).1) := by
  refine ⟨?_, ?_, ?_⟩
  · intro h2
    unfold MetadataPipeline.run at h2
    repeat' split at h2
    all_goals first
      | simp at h2
      | (rw [fallbackStep_snd] at h2; exact h2)
      | (rw [continueRun_snd] at h2; simp at h2)
  · intro hne
    unfold MetadataPipeline.run
    repeat' split
    all_goals try rfl
    · rename_i heq
      obtain ⟨m, hm, hmne⟩ := hne _
      rw [hm] at heq
      exact LLMOutcome.noConfusion heq
    · rename_i m0 heq hemp
      obtain ⟨m, hm, hmne⟩ := hne _
      rw [hm] at heq
      have hm0 : m = m0 := by injection heq
      subst hm0
      have : m = [] := by
        cases m with
        | nil => rfl
        | cons a as => exact absurd hemp (by simp)
      exact absurd this hmne
    · exact continueRun_snd env _ _ _ false
  · intro f m hllm hfb hf hmne
    have hempty : ¬ (m.isEmpty = true) := by
      cases m with
      | nil => exact absurd rfl hmne
      | cons a as => simp
    unfold MetadataPipeline.run
    dsimp only
    split
    · rfl
    split
    · rfl
    split
    · rfl
    split
    · rfl
    rw [hllm _]
    dsimp only
    rw [if_neg hempty]
    unfold fallbackStep
    rw [hfb]
    dsimp only
    rw [hf _]
    dsimp only
    rw [if_neg hempty]
    exact continueRun_fst_congr env _ _ _ m true false rfl rfl rfl rfl

/-- Witness for the amended C7: an LLM stage that always returns a
nonempty mapping never triggers the fallback. -/
theorem fallback_invocation_policy_witness :
    (MetadataPipeline.run
      { fallbackDemoEnv with
          llmStage := fun _ => .ok [("purpose", JVal.jstr "p")] }).2 = false :=
  (fallback_invocation_policy _).2.1
    (fun _ => ⟨[("purpose", JVal.jstr "p")], rfl, by simp⟩)

end ExtractMetadata
